import Mathlib

/-!
Verification development for the xiss scoped-CSS compiler core:
the global identifier generator (`global_id.rs`), the persistent CSS map
(`css_map.rs`), the line-oriented map parser (`xiss-map/src/parser.rs`),
the class-map emitter (`class_map.rs`) and the animation-name post-pass
(`compiler.rs`), shallowly embedded in Lean.

Conventions used throughout:
* Rust strings and string slices are `List Char` (all inputs of interest are
  ASCII, so byte positions and char positions coincide); the class-map
  emitter uses Lean `String` mirroring Rust `String`.
* Hash maps are association lists; hash sets are lists with membership.
* A Rust panic (out-of-bounds indexing) is modelled by `Option`/`none`.
* Loops are modelled by fuel-indexed structural recursion; every fuel value
  used is large enough that the fueled function agrees with the source loop
  (the fuel runs out only in states the source loop can never reach).
-/

deriving instance DecidableEq for Except

namespace Xiss

/-- The three identifier kinds from `xiss-map/src/id.rs`. -/
inductive IdKind where
  | Class
  | Var
  | Keyframes
deriving DecidableEq, Repr

/-- The `Id` record from `xiss/src/id.rs`. -/
structure Id where
  kind : IdKind
  module_index : Nat
  local_id : List Char
  global_id : List Char
deriving DecidableEq, Repr

/-- `ID_CHARS` from `xiss/src/global_id.rs`: 26 lowercase letters, 26
uppercase letters, 10 digits, `_`, `-` (64 characters total). -/
def ID_CHARS : List Char :=
  ['a', 'b', 'c', 'd', 'e', 'f', 'g', 'h', 'i', 'j', 'k', 'l', 'm',
   'n', 'o', 'p', 'q', 'r', 's', 't', 'u', 'v', 'w', 'x', 'y', 'z',
   'A', 'B', 'C', 'D', 'E', 'F', 'G', 'H', 'I', 'J', 'K', 'L', 'M',
   'N', 'O', 'P', 'Q', 'R', 'S', 'T', 'U', 'V', 'W', 'X', 'Y', 'Z',
   '0', '1', '2', '3', '4', '5', '6', '7', '8', '9', '_', '-']

/-- `while i >= base { i -= base; base <<= 6; }` from
`index_to_css_identifier`.  Each iteration strictly decreases `i`
(`base >= 52 > 0`), so fuel `i + 1` always suffices. -/
def find_base_go : Nat → Nat → Nat → Nat × Nat
  | 0, i, base => (i, base)
  | fuel + 1, i, base =>
    if base ≤ i then find_base_go fuel (i - base) (base * 64) else (i, base)

/-- The base-finding loop of `index_to_css_identifier`, started at 52. -/
def find_base (i : Nat) : Nat × Nat := find_base_go (i + 1) i 52

/-- `while base > 1 { i %= base; base >>= 6; result[p] = ID_CHARS[i / base]; }`
from `index_to_css_identifier`, producing the digit indices after the first.
The loop divides `base` by 64 each iteration, so fuel `base` suffices. -/
def digits_go : Nat → Nat → Nat → List Nat
  | 0, _, _ => []
  | fuel + 1, i, base =>
    if base ≤ 1 then []
    else
      let i2 := i % base
      let base2 := base / 64
      i2 / base2 :: digits_go fuel i2 base2

/-- The digit indices (positions into `ID_CHARS`) that
`index_to_css_identifier` writes into its buffer, in order. -/
def index_to_digits (i : Nat) : List Nat :=
  let p := find_base i
  let base := p.2 / 52
  p.1 / base :: digits_go base p.1 base

/-- `index_to_css_identifier` from `xiss/src/global_id.rs`.  The Rust
function writes into a fixed `[u8; 4]` buffer; an identifier needing a
fifth character makes `result[p]` panic (index out of bounds), which is
modelled by `none`. -/
def index_to_css_identifier (i : Nat) : Option (List Char) :=
  let ds := index_to_digits i
  if ds.length ≤ 4 then some (ds.map fun d => ID_CHARS.getD d ' ') else none

/-! Specification-side notions for the identifier generator: the counting
function for the language `[a-zA-Z][a-zA-Z0-9_-]*`, mixed-radix digit
strings, their rank in the enumeration ordered by length and then by the
`ID_CHARS` ordering vector, and the language predicates themselves. -/

/-- Number of identifiers of length at most `k`:
`52 + 52*64 + ... + 52*64^(k-1)`. -/
def cumCount : Nat → Nat
  | 0 => 0
  | k + 1 => cumCount k + 52 * 64 ^ k

/-- Generalized partial sums `b + b*64 + ... + b*64^(m-1)` in the shape
produced by the base-finding loop. -/
def geomSum (b : Nat) : Nat → Nat
  | 0 => 0
  | m + 1 => b + geomSum (b * 64) m

/-- The `m` base-64 digits of `x`, most significant first. -/
def natDigits (m x : Nat) : List Nat :=
  match m with
  | 0 => []
  | m + 1 => x / 64 ^ m :: natDigits m (x % 64 ^ m)

/-- Value of a digit string read in base 64, most significant first. -/
def digitsVal : List Nat → Nat
  | [] => 0
  | d :: ds => d * 64 ^ ds.length + digitsVal ds

/-- Valid digit strings: nonempty, leading digit below 52 (a letter
position in `ID_CHARS`), remaining digits below 64. -/
def validDigits : List Nat → Prop
  | [] => False
  | d :: ds => d < 52 ∧ ∀ x ∈ ds, x < 64

/-- The rank of a digit string in the enumeration of the identifier
language ordered by length and then by digit positions: all shorter
identifiers come first, then the base-64 value decides. -/
def digitsRank (ds : List Nat) : Nat := cumCount (ds.length - 1) + digitsVal ds

/-- Leading characters of the identifier language: `[a-zA-Z]`. -/
def isIdentHeadChar (c : Char) : Bool :=
  ('a' ≤ c && c ≤ 'z') || ('A' ≤ c && c ≤ 'Z')

/-- Continuation characters of the identifier language: `[a-zA-Z0-9_-]`. -/
def isIdentTailChar (c : Char) : Bool :=
  isIdentHeadChar c || ('0' ≤ c && c ≤ '9') || c == '_' || c == '-'

/-- Membership in the language `[a-zA-Z][a-zA-Z0-9_-]*` of §4.1. -/
def isCssIdent : List Char → Bool
  | [] => false
  | c :: rest => isIdentHeadChar c && rest.all isIdentTailChar

/-- The character at position `d` of the ordering vector `ID_CHARS`. -/
def idCharOf (d : Nat) : Char := ID_CHARS.getD d ' '

/-- The position of a character in the ordering vector `ID_CHARS`. -/
def charIdxOf (c : Char) : Nat := ID_CHARS.indexOf c

/-- Strict lexicographic order on equal-length digit strings. -/
def digitLexLt : List Nat → List Nat → Prop
  | d1 :: t1, d2 :: t2 => d1 < d2 ∨ (d1 = d2 ∧ digitLexLt t1 t2)
  | _, _ => False

/-- The enumeration order of §4.1 on identifiers: shorter first, then
lexicographic by position in the ordering vector `ID_CHARS`. -/
def cssWordLt (w1 w2 : List Char) : Prop :=
  w1.length < w2.length ∨
    (w1.length = w2.length ∧ digitLexLt (w1.map charIdxOf) (w2.map charIdxOf))

/-! Embedding of `xiss-map/src/parser.rs`.  The Rust parser walks
`CharIndices` over the whole input string with absolute positions and
returns borrowed slices `&s[a..b]`; positions are `Nat` char indices here
(the inputs of interest are ASCII, where char and byte offsets agree). -/

/-- Error kinds from `xiss-map/src/parser.rs`. -/
inductive PErrorKind where
  | invalidChar (pos : Nat) (c : Char)
  | unexpectedEOL
deriving DecidableEq, Repr

/-- Parser error, an `ErrorKind` plus the 1-based line number. -/
structure PError where
  kind : PErrorKind
  line_num : Nat
deriving DecidableEq, Repr

/-- First character accepted by `parse_module_id`: `[A-Za-z0-9_]`. -/
def is_module_id_start (c : Char) : Bool :=
  ('a' ≤ c && c ≤ 'z') || ('A' ≤ c && c ≤ 'Z') || ('0' ≤ c && c ≤ '9') || c == '_'

/-- Continuation characters of `parse_module_id`: letters, digits, `_`,
`-` and the slash. -/
def is_module_id_char (c : Char) : Bool :=
  is_module_id_start c || c == '-' || c == '/'

/-- First character accepted by `parse_local_id`: `[A-Za-z_]`. -/
def is_local_id_start (c : Char) : Bool :=
  ('a' ≤ c && c ≤ 'z') || ('A' ≤ c && c ≤ 'Z') || c == '_'

/-- Continuation characters of `parse_local_id`: `[A-Za-z0-9_]`. -/
def is_local_id_char (c : Char) : Bool :=
  is_local_id_start c || ('0' ≤ c && c ≤ '9')

/-- First character accepted by `parse_global_id`: `[A-Za-z]`. -/
def is_global_id_start (c : Char) : Bool :=
  ('a' ≤ c && c ≤ 'z') || ('A' ≤ c && c ≤ 'Z')

/-- Continuation characters of `parse_global_id`: `[A-Za-z0-9_-]`. -/
def is_global_id_char (c : Char) : Bool :=
  is_global_id_start c || ('0' ≤ c && c ≤ '9') || c == '_' || c == '-'

/-- `parse_id_kind`: reads the kind character and the following comma.
Returns the consumed-character count (0 at end of input, else 2), the kind
and the new position. -/
def parse_id_kind (s : List Char) (pos : Nat) : Except PError (Nat × IdKind × Nat) :=
  match s.get? pos with
  | none => .ok (0, IdKind.Class, pos)
  | some c =>
    match (match c with
           | 'C' => Except.ok IdKind.Class
           | 'V' => Except.ok IdKind.Var
           | 'K' => Except.ok IdKind.Keyframes
           | _ => Except.error (⟨.invalidChar pos c, 0⟩ : PError)) with
    | .error e => .error e
    | .ok kind =>
      match s.get? (pos + 1) with
      | none => .error ⟨.unexpectedEOL, 0⟩
      | some c2 =>
        if c2 == ',' then .ok (2, kind, pos + 2) else .error ⟨.invalidChar (pos + 1) c2, 0⟩

/-- The `for (i, c) in iter` loop of `parse_module_id`, returning the
absolute position of the terminating comma.  Fuel runs out only past the
end of the input, where the source loop has already fallen through to
`UnexpectedEOL`. -/
def module_id_go (s : List Char) : Nat → Nat → Except PError Nat
  | 0, _ => .error ⟨.unexpectedEOL, 0⟩
  | fuel + 1, p =>
    match s.get? p with
    | none => .error ⟨.unexpectedEOL, 0⟩
    | some c =>
      if is_module_id_char c then module_id_go s fuel (p + 1)
      else if c == ',' then .ok p
      else .error ⟨.invalidChar p c, 0⟩

/-- `parse_module_id` from `xiss-map/src/parser.rs`.  Returns
`(i + 1, &s[2..i])` where `i` is the comma position — the slice start is
the literal constant 2 in the source, which is the module-id field start
only on the first line of the input. -/
def parse_module_id (s : List Char) (pos : Nat) : Except PError ((Nat × List Char) × Nat) :=
  match s.get? pos with
  | none => .error ⟨.unexpectedEOL, 0⟩
  | some c =>
    if is_module_id_start c then
      match module_id_go s (s.length + 1) (pos + 1) with
      | .error e => .error e
      | .ok i => .ok ((i + 1, (s.drop 2).take (i - 2)), i + 1)
    else .error ⟨.invalidChar pos c, 0⟩

/-- The scanning loop of `parse_local_id`. -/
def local_id_go (s : List Char) : Nat → Nat → Except PError Nat
  | 0, _ => .error ⟨.unexpectedEOL, 0⟩
  | fuel + 1, p =>
    match s.get? p with
    | none => .error ⟨.unexpectedEOL, 0⟩
    | some c =>
      if is_local_id_char c then local_id_go s fuel (p + 1)
      else if c == ',' then .ok p
      else .error ⟨.invalidChar p c, 0⟩

/-- `parse_local_id`: scans `[A-Za-z_][A-Za-z0-9_]*` from `start` up to a
comma at position `i` and returns `(i + 1, &s[start..i])`. -/
def parse_local_id (s : List Char) (start pos : Nat) :
    Except PError ((Nat × List Char) × Nat) :=
  match s.get? pos with
  | none => .error ⟨.unexpectedEOL, 0⟩
  | some c =>
    if is_local_id_start c then
      match local_id_go s (s.length + 1) (pos + 1) with
      | .error e => .error e
      | .ok i => .ok ((i + 1, (s.drop start).take (i - start)), i + 1)
    else .error ⟨.invalidChar pos c, 0⟩

/-- The scanning loop of `parse_global_id`: a `\n` at position `i` yields
`&s[start..i]`; exhausting the input yields `&s[start..]`. -/
def global_id_go (s : List Char) (start : Nat) : Nat → Nat → Except PError (List Char × Nat)
  | 0, p => .ok (s.drop start, p)
  | fuel + 1, p =>
    match s.get? p with
    | none => .ok (s.drop start, p)
    | some c =>
      if is_global_id_char c then global_id_go s start fuel (p + 1)
      else if c == '\n' then .ok ((s.drop start).take (p - start), p + 1)
      else .error ⟨.invalidChar p c, 0⟩

/-- `parse_global_id`: scans `[A-Za-z][A-Za-z0-9_-]*` terminated by `\n`
or end of input. -/
def parse_global_id (s : List Char) (start pos : Nat) :
    Except PError (List Char × Nat) :=
  match s.get? pos with
  | none => .error ⟨.unexpectedEOL, 0⟩
  | some c =>
    if is_global_id_start c then global_id_go s start (s.length + 1) (pos + 1)
    else .error ⟨.invalidChar pos c, 0⟩

/-- `parse_line`: one CSV row `kind , module_id , local_id , global_id \n`,
or `none` at end of input. -/
def parse_line (s : List Char) (pos : Nat) :
    Except PError (Option (IdKind × List Char × List Char × List Char) × Nat) :=
  match parse_id_kind s pos with
  | .error e => .error e
  | .ok (count, kind, pos1) =>
    if count = 2 then
      match parse_module_id s pos1 with
      | .error e => .error e
      | .ok ((start1, module_id), pos2) =>
        match parse_local_id s start1 pos2 with
        | .error e => .error e
        | .ok ((start2, local_id), pos3) =>
          match parse_global_id s start2 pos3 with
          | .error e => .error e
          | .ok (global_id, pos4) => .ok (some (kind, module_id, local_id, global_id), pos4)
    else .ok (none, pos1)

/-- The mutable state of `Parser` (the input string is passed alongside). -/
structure ParserState where
  pos : Nat
  line_num : Nat
  prev_module_id : List Char
deriving DecidableEq, Repr

/-- `Parser::new`. -/
def parser_new : ParserState := ⟨0, 1, []⟩

/-- `Parser::next_id`: parses one row and applies the module-id delta
encoding against `prev_module_id`. -/
def next_id (s : List Char) (st : ParserState) :
    Except PError (Option (IdKind × Option (List Char) × List Char × List Char) × ParserState) :=
  match parse_line s st.pos with
  | .error e => .error ⟨e.kind, st.line_num⟩
  | .ok (none, _) => .ok (none, st)
  | .ok (some (kind, module_id, local_id, global_id), pos2) =>
    if st.prev_module_id = module_id then
      .ok (some (kind, none, local_id, global_id), ⟨pos2, st.line_num + 1, st.prev_module_id⟩)
    else
      .ok (some (kind, some module_id, local_id, global_id), ⟨pos2, st.line_num + 1, module_id⟩)

/-- Drives `next_id` to the end of the input, collecting the yielded rows.
Each parsed row consumes at least one character, so fuel `s.length + 1`
never runs out before the parser stops by itself. -/
def parse_all_go (s : List Char) :
    Nat → ParserState → Except PError (List (IdKind × Option (List Char) × List Char × List Char))
  | 0, _ => .ok []
  | fuel + 1, st =>
    match next_id s st with
    | .error e => .error e
    | .ok (none, _) => .ok []
    | .ok (some row, st2) =>
      match parse_all_go s fuel st2 with
      | .error e => .error e
      | .ok rows => .ok (row :: rows)

/-- All rows yielded by a fresh `Parser` over `s`. -/
def parse_all (s : List Char) :
    Except PError (List (IdKind × Option (List Char) × List Char × List Char)) :=
  parse_all_go s (s.length + 1) parser_new

/-- One serialized CSV row, exactly as `CssMap::get_id` appends it:
`kind , module_id , local_id , global_id \n`. -/
def mk_row (kind module_id local_id global_id : List Char) : List Char :=
  kind ++ [','] ++ module_id ++ [','] ++ local_id ++ [','] ++ global_id ++ ['\n']

/-! Embedding of `IdSet` from `xiss/src/global_id.rs` and `CssMap` from
`xiss/src/css_map.rs`.  Exclude regexes are modelled as opaque predicates
on identifiers; the `FxHashSet` of seen ids and the `FxHashMap`s are lists
with membership / association-list lookup. -/

/-- `IdSet` from `xiss/src/global_id.rs`. -/
structure IdSet where
  index : Nat
  exclude : List (List Char → Bool)
  set : List (List Char)

/-- `IdSet::add`: inserts an externally observed identifier. -/
def IdSet.add (s : IdSet) (id : List Char) : IdSet :=
  { s with set := id :: s.set }

/-- The `loop` of `IdSet::next_id`: draw `index_to_css_identifier`, skip
candidates that match an exclude or sit in the seen set.  A generator
panic is `none`.  Fuel can run out only at a counter past 13847860, where
the generator has already panicked, so the fueled loop agrees with the
source loop. -/
def next_id_go (s : IdSet) : Nat → Nat → Option (List Char × IdSet)
  | _, 0 => none
  | n, fuel + 1 =>
    match index_to_css_identifier n with
    | none => none
    | some uid =>
      if s.exclude.any fun r => r uid then next_id_go s (n + 1) fuel
      else if s.set.contains uid then next_id_go s (n + 1) fuel
      else some (uid, { s with index := n + 1 })

/-- `IdSet::next_id`: generates a new unique identifier, advancing the
internal counter past the position it was found at. -/
def IdSet.next_id (s : IdSet) : Option (List Char × IdSet) :=
  next_id_go s s.index (13847861 - s.index)

/-- `k` consecutive `next_id` calls on the same set, collecting the
returned identifiers (`none` when any call panics). -/
def IdSet.next_ids (s : IdSet) : Nat → Option (List (List Char))
  | 0 => some []
  | k + 1 =>
    match s.next_id with
    | none => none
    | some (uid, s2) =>
      match s2.next_ids k with
      | none => none
      | some ws => some (uid :: ws)

/-- `CssMapModule` from `xiss/src/css_map.rs`. -/
structure CssMapModule where
  id : List Char
  index : Nat
  classes : List (List Char × Id)
  vars : List (List Char × Id)
  keyframes : List (List Char × Id)
deriving DecidableEq, Repr

/-- `CssMapError` from `xiss/src/css_map.rs` (the payloads of the I/O and
regex variants are dropped). -/
inductive CssMapError where
  | IOError
  | ParserError (e : PError)
  | InvalidExcludeRule
  | DuplicateEntry (kind : IdKind) (module_id : List Char) (local_id : List Char)
deriving DecidableEq, Repr

/-- `CssMap` from `xiss/src/css_map.rs`. -/
structure CssMap where
  index : List (List Char × Nat)
  modules : List CssMapModule
  classes : IdSet
  vars : IdSet
  keyframes : IdSet
  new_ids_buf : List Char

/-- `CssMap::new`: the compiled exclude regexes are taken directly as
predicates. -/
def CssMap.new (exclude_class exclude_var exclude_keyframes : List (List Char → Bool)) :
    CssMap :=
  ⟨[], [], ⟨0, exclude_class, []⟩, ⟨0, exclude_var, []⟩, ⟨0, exclude_keyframes, []⟩, []⟩

/-- A `CssMap::new` with no exclude rules. -/
def cssMapEmpty : CssMap := CssMap.new [] [] []

/-- `CssMap::get_module_index` (via the free function `get_module_index`):
looks the module up, creating and appending it when absent. -/
def CssMap.get_module_index (m : CssMap) (module_name : List Char) : Nat × CssMap :=
  match m.index.lookup module_name with
  | some module_id => (module_id, m)
  | none =>
    let module_id := m.modules.length
    (module_id,
     { m with index := (module_name, module_id) :: m.index,
              modules := m.modules ++ [⟨module_name, module_id, [], [], []⟩] })

/-- `CssMap::get_id`.  `self.modules[module_index]` panics on an
out-of-range index and `IdSet::next_id` can panic in the generator, both
modelled by `none`.  When a fresh id is minted, the source appends the row
with the kind letter derived from `id_kind` but constructs the record as
`Id::new(IdKind::Class, ...)` for every requested kind. -/
def CssMap.get_id (m : CssMap) (module_index : Nat) (id_kind : IdKind) (local_id : List Char) :
    Option (Id × CssMap) :=
  match m.modules.get? module_index with
  | none => none
  | some module =>
    let submap := match id_kind with
      | .Class => module.classes
      | .Var => module.vars
      | .Keyframes => module.keyframes
    match submap.lookup local_id with
    | some id => some (id, m)
    | none =>
      let id_set := match id_kind with
        | .Class => m.classes
        | .Var => m.vars
        | .Keyframes => m.keyframes
      match id_set.next_id with
      | none => none
      | some (global_id, id_set2) =>
        let id_char : Char := match id_kind with
          | .Class => 'C'
          | .Var => 'V'
          | .Keyframes => 'K'
        let buf := m.new_ids_buf ++ [id_char, ','] ++ module.id ++ [','] ++
          local_id ++ [','] ++ global_id ++ ['\n']
        let id : Id := ⟨IdKind.Class, module_index, local_id, global_id⟩
        let module2 := match id_kind with
          | .Class => { module with classes := (local_id, id) :: module.classes }
          | .Var => { module with vars := (local_id, id) :: module.vars }
          | .Keyframes => { module with keyframes := (local_id, id) :: module.keyframes }
        let m2 := match id_kind with
          | .Class => { m with classes := id_set2 }
          | .Var => { m with vars := id_set2 }
          | .Keyframes => { m with keyframes := id_set2 }
        some (id, { m2 with modules := m2.modules.set module_index module2,
                            new_ids_buf := buf })

/-- The free function `insert_id` from `xiss/src/css_map.rs`: rejects a
duplicate local id, otherwise registers the global id with the kind's
identifier set and stores the record. -/
def insert_id (module_id : List Char) (map : List (List Char × Id)) (id_set : IdSet)
    (id : Id) : Except CssMapError (List (List Char × Id) × IdSet) :=
  match map.lookup id.local_id with
  | none => .ok ((id.local_id, id) :: map, id_set.add id.global_id)
  | some _ => .error (.DuplicateEntry id.kind module_id id.local_id)

/-- The row loop of `CssMap::import`.  `module_index` starts at 0 and is
updated whenever the parser yields an explicit module id.  Fuel
`s.length + 1` cannot run out: every yielded row consumes input. -/
def import_go (s : List Char) : Nat → ParserState → Nat → CssMap → Except CssMapError CssMap
  | 0, _, _, m => .ok m
  | fuel + 1, st, module_index, m =>
    match next_id s st with
    | .error e => .error (.ParserError e)
    | .ok (none, _) => .ok m
    | .ok (some (kind, module_id_opt, local_id, global_id), st2) =>
      let p : Nat × CssMap := match module_id_opt with
        | none => (module_index, m)
        | some module_id =>
          match m.index.lookup module_id with
          | some i => (i, m)
          | none =>
            let i := m.modules.length
            (i, { m with index := (module_id, i) :: m.index,
                         modules := m.modules ++ [⟨module_id, i, [], [], []⟩] })
      let module_index2 := p.1
      let m2 := p.2
      match m2.modules.get? module_index2 with
      | none => import_go s fuel st2 module_index2 m2
      | some module =>
        let id : Id := ⟨kind, module.index, local_id, global_id⟩
        match kind with
        | .Class =>
          match insert_id module.id module.classes m2.classes id with
          | .error e => .error e
          | .ok (submap2, id_set2) =>
            import_go s fuel st2 module_index2
              { m2 with
                modules := m2.modules.set module_index2 { module with classes := submap2 },
                classes := id_set2 }
        | .Var =>
          match insert_id module.id module.vars m2.vars id with
          | .error e => .error e
          | .ok (submap2, id_set2) =>
            import_go s fuel st2 module_index2
              { m2 with
                modules := m2.modules.set module_index2 { module with vars := submap2 },
                vars := id_set2 }
        | .Keyframes =>
          match insert_id module.id module.keyframes m2.keyframes id with
          | .error e => .error e
          | .ok (submap2, id_set2) =>
            import_go s fuel st2 module_index2
              { m2 with
                modules := m2.modules.set module_index2 { module with keyframes := submap2 },
                keyframes := id_set2 }

/-- `CssMap::import`: stream-parse the rows of `s` into the map. -/
def CssMap.import (m : CssMap) (s : List Char) : Except CssMapError CssMap :=
  import_go s (s.length + 1) parser_new 0 m

/-- `CssMap::flush_new_ids`.  The writer is represented by the results of
its two calls: `write_result` models `output.write(buf)` — the writer
accepts some count of bytes, possibly fewer than the buffer holds, and the
source discards that count — and `flush_result` models `output.flush()`.
On success the pending buffer is cleared. -/
def CssMap.flush_new_ids (m : CssMap) (write_result : Except Unit Nat)
    (flush_result : Except Unit Unit) : Except Unit CssMap :=
  match write_result with
  | .error e => .error e
  | .ok _ =>
    match flush_result with
    | .error e => .error e
    | .ok _ => .ok { m with new_ids_buf := [] }

/-! Embedding of the slice of `xiss/src/compiler.rs` that the keyframes
post-pass depends on: `ModuleScope::get_id`, `visit_mut_keyframes_name`
and `TransformAnimationNames::visit_mut_declaration`. -/

/-- The per-compilation scope maps of `ModuleScope` (the `&mut CssMap` it
borrows is passed and returned explicitly). -/
structure ModuleScope where
  classes : List (List Char × Id)
  vars : List (List Char × Id)
  keyframes : List (List Char × Id)
deriving DecidableEq, Repr

/-- `ModuleScope::get_id`: consults the scope cache, falling back to
`CssMap::get_id` and caching the result. -/
def ModuleScope.get_id (sc : ModuleScope) (m : CssMap) (module_index : Nat)
    (id_kind : IdKind) (local_id : List Char) : Option (Id × CssMap × ModuleScope) :=
  let map := match id_kind with
    | .Class => sc.classes
    | .Var => sc.vars
    | .Keyframes => sc.keyframes
  match map.lookup local_id with
  | some id => some (id, m, sc)
  | none =>
    match m.get_id module_index id_kind local_id with
    | none => none
    | some (id, m2) =>
      let sc2 := match id_kind with
        | .Class => { sc with classes := (local_id, id) :: sc.classes }
        | .Var => { sc with vars := (local_id, id) :: sc.vars }
        | .Keyframes => { sc with keyframes := (local_id, id) :: sc.keyframes }
      some (id, m2, sc2)

/-- `visit_mut_keyframes_name` on a custom-ident keyframes name: resolves
it through the scope, rewrites it to the global id and records that a
keyframes rule was seen (`has_keyframes = true`). -/
def visit_keyframes_name (sc : ModuleScope) (m : CssMap) (module_index : Nat)
    (name : List Char) : Option (List Char × CssMap × ModuleScope × Bool) :=
  match sc.get_id m module_index IdKind.Keyframes name with
  | none => none
  | some (id, m2, sc2) => some (id.global_id, m2, sc2, true)

/-- Component values of a declaration, as far as the animation post-pass
inspects them (`ComponentValue::Ident` and everything else). -/
inductive CompValue where
  | ident (value : List Char)
  | token (value : List Char)
deriving DecidableEq, Repr

/-- A CSS declaration with an identifier name. -/
structure Declaration where
  name : List Char
  value : List CompValue
deriving DecidableEq, Repr

/-- `TransformAnimationNames::visit_mut_declaration`: in a declaration
named `animation`, every ident component found in the keyframes scope
whose record has `kind == IdKind::Keyframes` is rewritten to its global
id; every other component is left unchanged. -/
def transform_animation_decl (scope_keyframes : List (List Char × Id))
    (decl : Declaration) : Declaration :=
  if decl.name = ("animation".toList) then
    { decl with
      value := decl.value.map fun v =>
        match v with
        | .ident w =>
          match scope_keyframes.lookup w with
          | some id =>
            if id.kind = IdKind.Keyframes then .ident id.global_id else .ident w
          | none => .ident w
        | .token w => .token w }
  else decl

/-! Embedding of `xiss/src/class_map.rs`: the class-map record, the
exclude-constraint check, the 2^N lookup-table generator and the string
join rule.  These functions work on Rust `String`s, mirrored by Lean
`String`s. -/

/-- `join_strings` from `xiss/src/class_map.rs`: joins `a` and `b` with a
single space unless `a` is empty.  Note that `b` is appended after the
space even when `b` is empty. -/
def join_strings (a b : String) : String :=
  if a.isEmpty then b else (a.push ' ') ++ b

/-- `ClassMapState`: a state name and its (already space-joined) class
string. -/
structure ClassMapState where
  name : String
  classes : String
deriving DecidableEq, Repr

/-- `ClassMap` from `xiss/src/class_map.rs`. -/
structure ClassMap where
  name : String
  static_classes : String
  states : List ClassMapState
  exclude_constraints : List Nat
deriving DecidableEq, Repr

/-- `ClassMap::is_constraints_satisfied`: a mask is satisfied when no
exclude constraint is fully contained in it. -/
def ClassMap.is_constraints_satisfied (cm : ClassMap) (index : Nat) : Bool :=
  cm.exclude_constraints.all fun c => !(index &&& c == c)

/-- `ClassMap::create_empty_table`: `2^N` empty strings. -/
def ClassMap.create_empty_table (cm : ClassMap) : List String :=
  List.replicate (2 ^ cm.states.length) ""

/-- `ClassMap::populate_table`: fills the table entry of every satisfied
mask extending `prev_state_mask` with bits at positions `≥ i`.  The final
`else result` branch is unreachable from the entry point, where `i` never
exceeds `states.len()`. -/
def ClassMap.populate_table (cm : ClassMap) (result : List String) (i : Nat)
    (prev_state : String) (prev_state_mask : Nat) : List String :=
  if !(cm.is_constraints_satisfied prev_state_mask) then result
  else if i = cm.states.length then result.set prev_state_mask prev_state
  else if h : i < cm.states.length then
    let r1 := cm.populate_table result (i + 1) prev_state prev_state_mask
    cm.populate_table r1 (i + 1)
      (join_strings prev_state (cm.states.get ⟨i, h⟩).classes)
      (prev_state_mask ||| (1 <<< i))
  else result
termination_by cm.states.length - i

/-- The table built by `emit_js` in table mode:
`populate_table(&mut create_empty_table(), 0, &static_classes, 0)`. -/
def ClassMap.table (cm : ClassMap) : List String :=
  cm.populate_table cm.create_empty_table 0 cm.static_classes 0

/-- Specification-side description of one table entry: the static classes
joined (by the join rule) with the classes of each active state of mask
`t`, in state-index order. -/
def active_join (acc : String) (cls : List String) (t : Nat) : String :=
  match cls with
  | [] => acc
  | c :: rest => active_join (if t % 2 = 1 then join_strings acc c else acc) rest (t / 2)

/-- C1 scenario: a map built from empty state by `get_module_index` for
module `foo` followed by `get_id` for class locals `title` and `subtitle`.
Returns the two ids and the final map. -/
def c1_build : Option (Id × Id × CssMap) := do
  let (mi, m1) := cssMapEmpty.get_module_index ("foo".toList)
  let (id1, m2) ← m1.get_id mi IdKind.Class ("title".toList)
  let (id2, m3) ← m2.get_id mi IdKind.Class ("subtitle".toList)
  pure (id1, id2, m3)

/-- The serialization of every id of the C1 map in insertion order, in the
CSV row format. -/
def c1_serialized : List Char :=
  mk_row ("C".toList) ("foo".toList) ("title".toList) ("a".toList) ++
    mk_row ("C".toList) ("foo".toList) ("subtitle".toList) ("b".toList)

/-- A fresh map constructed by importing the C1 serialization. -/
def c1_reimported : Option CssMap := (cssMapEmpty.import c1_serialized).toOption

/-- C4 scenario: compiling module `foo` from an empty map, the visitor
meets `@keyframes spin` and resolves it through the module scope. -/
def c4_visit : Option (List Char × CssMap × ModuleScope × Bool) :=
  visit_keyframes_name ⟨[], [], []⟩ ((cssMapEmpty.get_module_index ("foo".toList)).2) 0
    ("spin".toList)

/-- C6 scenario: a map whose pending buffer holds one 14-byte row. -/
def c6_m : CssMap :=
  { cssMapEmpty with
    new_ids_buf := mk_row ("C".toList) ("foo".toList) ("title".toList) ("a".toList) }

/-! Proof development for the identifier generator (claims C5 and C8):
the base-finding loop lands in the unique length bracket, the digit loop
produces base-64 digits, and `digitsRank` is a two-sided inverse of the
digit encoding, which yields injectivity, surjectivity onto identifiers of
length at most 4, and order-correctness of the enumeration. -/


theorem geomSum_succ (b m : Nat) : geomSum b (m + 1) = geomSum b m + b * 64 ^ m := by
  induction m generalizing b with
  | zero => simp [geomSum]
  | succ m ih =>
    have h1 : geomSum b (m + 1 + 1) = b + geomSum (b * 64) (m + 1) := rfl
    have h2 : geomSum b (m + 1) = b + geomSum (b * 64) m := rfl
    rw [h1, ih (b * 64), h2]
    ring

theorem geomSum_52 (m : Nat) : geomSum 52 m = cumCount m := by
  induction m with
  | zero => rfl
  | succ m ih => rw [geomSum_succ, ih, cumCount]

theorem cumCount_lt_succ (m : Nat) : cumCount m < cumCount (m + 1) := by
  have : 0 < 52 * 64 ^ m := by positivity
  calc cumCount m < cumCount m + 52 * 64 ^ m := by omega
    _ = cumCount (m + 1) := rfl

theorem cumCount_strictMono : StrictMono cumCount :=
  strictMono_nat_of_lt_succ cumCount_lt_succ

theorem find_base_go_spec :
    ∀ fuel i b, 0 < b → i < fuel →
      ∃ m, geomSum b m ≤ i ∧ i < geomSum b (m + 1) ∧
        find_base_go fuel i b = (i - geomSum b m, b * 64 ^ m) := by
  intro fuel
  induction fuel with
  | zero => intro i b _ hi; omega
  | succ fuel ih =>
    intro i b hb hi
    rw [find_base_go]
    by_cases hbi : b ≤ i
    · rw [if_pos hbi]
      obtain ⟨m, h1, h2, h3⟩ := ih (i - b) (b * 64) (by positivity) (by omega)
      have e1 : geomSum b (m + 1) = b + geomSum (b * 64) m := rfl
      have e2 : geomSum b (m + 1 + 1) = b + geomSum (b * 64) (m + 1) := rfl
      refine ⟨m + 1, by omega, by omega, ?_⟩
      rw [h3]
      have e3 : i - b - geomSum (b * 64) m = i - geomSum b (m + 1) := by omega
      have e4 : b * 64 * 64 ^ m = b * 64 ^ (m + 1) := by ring
      rw [e3, e4]
    · rw [if_neg hbi]
      have e1 : geomSum b (0 + 1) = b := rfl
      have e0 : geomSum b 0 = 0 := rfl
      refine ⟨0, by omega, by omega, ?_⟩
      rw [e0]
      simp

theorem find_base_spec (i : Nat) :
    ∃ m, cumCount m ≤ i ∧ i < cumCount (m + 1) ∧
      find_base i = (i - cumCount m, 52 * 64 ^ m) := by
  obtain ⟨m, h1, h2, h3⟩ := find_base_go_spec (i + 1) i 52 (by norm_num) (by omega)
  rw [geomSum_52] at h1 h2
  exact ⟨m, h1, h2, by rw [find_base, h3, geomSum_52]⟩

theorem digits_go_spec :
    ∀ m fuel i, 64 ^ m ≤ fuel → digits_go fuel i (64 ^ m) = natDigits m (i % 64 ^ m) := by
  intro m
  induction m with
  | zero =>
    intro fuel i h
    match fuel, h with
    | fuel + 1, _ =>
      show digits_go (fuel + 1) i 1 = natDigits 0 (i % 1)
      rw [digits_go, natDigits]
      simp
  | succ m ih =>
    intro fuel i h
    have hp : (1 : Nat) ≤ 64 ^ m := Nat.one_le_pow _ _ (by norm_num)
    have h64 : 64 ^ m + 1 ≤ 64 ^ (m + 1) := by
      have : 64 ^ (m + 1) = 64 * 64 ^ m := by ring
      omega
    match fuel, (by omega : 1 ≤ fuel) with
    | fuel + 1, _ =>
      rw [digits_go]
      rw [if_neg (by omega)]
      have hdiv : 64 ^ (m + 1) / 64 = 64 ^ m := by
        rw [pow_succ, Nat.mul_div_cancel _ (by norm_num)]
      have hfuel : 64 ^ m ≤ fuel := by omega
      simp only [hdiv]
      rw [ih fuel (i % 64 ^ (m + 1)) hfuel]
      have hmm : i % 64 ^ (m + 1) % 64 ^ m = i % 64 ^ (m + 1) % 64 ^ m := rfl
      show (i % 64 ^ (m + 1)) / 64 ^ m :: natDigits m (i % 64 ^ (m + 1) % 64 ^ m)
        = natDigits (m + 1) (i % 64 ^ (m + 1))
      rw [natDigits]


theorem natDigits_length (m : Nat) : ∀ x, (natDigits m x).length = m := by
  induction m with
  | zero => intro x; rfl
  | succ m ih => intro x; rw [natDigits]; simp [ih]

theorem natDigits_lt (m : Nat) :
    ∀ x, x < 64 ^ m → ∀ d ∈ natDigits m x, d < 64 := by
  induction m with
  | zero => intro x _ d hd; simp [natDigits] at hd
  | succ m ih =>
    intro x hx d hd
    rw [natDigits] at hd
    rcases List.mem_cons.mp hd with h | h
    · subst h
      rw [Nat.div_lt_iff_lt_mul (Nat.pos_pow_of_pos m (by norm_num))]
      calc x < 64 ^ (m + 1) := hx
        _ = 64 * 64 ^ m := by ring
    · exact ih (x % 64 ^ m) (Nat.mod_lt _ (Nat.pos_pow_of_pos m (by norm_num))) d h

theorem digitsVal_natDigits (m : Nat) :
    ∀ x, x < 64 ^ m → digitsVal (natDigits m x) = x := by
  induction m with
  | zero => intro x hx; interval_cases x; rfl
  | succ m ih =>
    intro x hx
    rw [natDigits, digitsVal, natDigits_length,
      ih (x % 64 ^ m) (Nat.mod_lt _ (Nat.pos_pow_of_pos m (by norm_num)))]
    calc x / 64 ^ m * 64 ^ m + x % 64 ^ m
        = 64 ^ m * (x / 64 ^ m) + x % 64 ^ m := by ring_nf
      _ = x := Nat.div_add_mod x (64 ^ m)

theorem digitsVal_lt (ds : List Nat) (h : ∀ d ∈ ds, d < 64) :
    digitsVal ds < 64 ^ ds.length := by
  induction ds with
  | nil => simp [digitsVal]
  | cons d ds ih =>
    rw [digitsVal]
    have hd : d < 64 := h d (List.mem_cons_self d ds)
    have hv : digitsVal ds < 64 ^ ds.length := ih fun x hx => h x (List.mem_cons_of_mem d hx)
    have : d * 64 ^ ds.length ≤ 63 * 64 ^ ds.length := Nat.mul_le_mul_right _ (by omega)
    calc d * 64 ^ ds.length + digitsVal ds < 63 * 64 ^ ds.length + 64 ^ ds.length := by omega
      _ = 64 ^ (ds.length + 1) := by ring
      _ = 64 ^ (d :: ds).length := by simp

theorem natDigits_digitsVal (ds : List Nat) (h : ∀ d ∈ ds, d < 64) :
    natDigits ds.length (digitsVal ds) = ds := by
  induction ds with
  | nil => rfl
  | cons d ds ih =>
    have hv : digitsVal ds < 64 ^ ds.length :=
      digitsVal_lt ds fun x hx => h x (List.mem_cons_of_mem d hx)
    show natDigits (ds.length + 1) (d * 64 ^ ds.length + digitsVal ds) = d :: ds
    rw [natDigits]
    have h1 : (d * 64 ^ ds.length + digitsVal ds) / 64 ^ ds.length = d := by
      rw [mul_comm d, Nat.mul_add_div (Nat.pos_pow_of_pos _ (by norm_num)),
        Nat.div_eq_of_lt hv, Nat.add_zero]
    have h2 : (d * 64 ^ ds.length + digitsVal ds) % 64 ^ ds.length = digitsVal ds := by
      rw [mul_comm d, Nat.mul_add_mod, Nat.mod_eq_of_lt hv]
    rw [h1, h2, ih fun x hx => h x (List.mem_cons_of_mem d hx)]


theorem index_to_digits_spec (i : Nat) :
    ∃ m, cumCount m ≤ i ∧ i < cumCount (m + 1) ∧
      index_to_digits i =
        (i - cumCount m) / 64 ^ m :: natDigits m ((i - cumCount m) % 64 ^ m) := by
  obtain ⟨m, h1, h2, h3⟩ := find_base_spec i
  refine ⟨m, h1, h2, ?_⟩
  rw [index_to_digits, h3]
  have hb : 52 * 64 ^ m / 52 = 64 ^ m := by
    rw [Nat.mul_div_cancel_left _ (by norm_num)]
  simp only [hb]
  rw [digits_go_spec m (64 ^ m) _ le_rfl]

theorem index_to_digits_validDigits (i : Nat) : validDigits (index_to_digits i) := by
  obtain ⟨m, h1, h2, h3⟩ := index_to_digits_spec i
  rw [h3]
  have hr : i - cumCount m < 52 * 64 ^ m := by
    have : cumCount (m + 1) = cumCount m + 52 * 64 ^ m := rfl
    omega
  constructor
  · rw [Nat.div_lt_iff_lt_mul (Nat.pos_pow_of_pos m (by norm_num))]
    exact hr
  · exact natDigits_lt m _ (Nat.mod_lt _ (Nat.pos_pow_of_pos m (by norm_num)))

theorem digitsRank_index_to_digits (i : Nat) : digitsRank (index_to_digits i) = i := by
  obtain ⟨m, h1, h2, h3⟩ := index_to_digits_spec i
  rw [h3, digitsRank]
  have hlen : ((i - cumCount m) / 64 ^ m :: natDigits m ((i - cumCount m) % 64 ^ m)).length
      = m + 1 := by
    simp [natDigits_length]
  rw [hlen]
  simp only [Nat.add_sub_cancel]
  rw [digitsVal, natDigits_length,
    digitsVal_natDigits m _ (Nat.mod_lt _ (Nat.pos_pow_of_pos m (by norm_num)))]
  have : (i - cumCount m) / 64 ^ m * 64 ^ m + (i - cumCount m) % 64 ^ m = i - cumCount m := by
    calc (i - cumCount m) / 64 ^ m * 64 ^ m + (i - cumCount m) % 64 ^ m
        = 64 ^ m * ((i - cumCount m) / 64 ^ m) + (i - cumCount m) % 64 ^ m := by ring_nf
      _ = i - cumCount m := Nat.div_add_mod _ _
  omega


theorem index_to_digits_inj {i j : Nat} (h : index_to_digits i = index_to_digits j) :
    i = j := by
  have hi := digitsRank_index_to_digits i
  have hj := digitsRank_index_to_digits j
  rw [← hi, ← hj, h]

theorem cumCount_bracket_unique {a b i : Nat}
    (ha1 : cumCount a ≤ i) (ha2 : i < cumCount (a + 1))
    (hb1 : cumCount b ≤ i) (hb2 : i < cumCount (b + 1)) : a = b := by
  rcases lt_trichotomy a b with h | h | h
  · have : cumCount (a + 1) ≤ cumCount b := cumCount_strictMono.monotone (by omega)
    omega
  · exact h
  · have : cumCount (b + 1) ≤ cumCount a := cumCount_strictMono.monotone (by omega)
    omega

theorem index_to_digits_digitsRank (ds : List Nat) (h : validDigits ds) :
    index_to_digits (digitsRank ds) = ds := by
  match ds, h with
  | d :: t, ⟨hd, ht⟩ =>
    have hvt : digitsVal t < 64 ^ t.length := digitsVal_lt t ht
    have hv : digitsVal (d :: t) < 52 * 64 ^ t.length := by
      rw [digitsVal]
      have : d * 64 ^ t.length ≤ 51 * 64 ^ t.length := Nat.mul_le_mul_right _ (by omega)
      have h52 : (51 : Nat) * 64 ^ t.length + 64 ^ t.length = 52 * 64 ^ t.length := by ring
      omega
    have hrank : digitsRank (d :: t) = cumCount t.length + digitsVal (d :: t) := by
      rw [digitsRank]
      simp
    obtain ⟨m, h1, h2, h3⟩ := index_to_digits_spec (digitsRank (d :: t))
    have hm : m = t.length := by
      refine cumCount_bracket_unique h1 h2 ?_ ?_
      · rw [hrank]; omega
      · rw [hrank]
        have : cumCount (t.length + 1) = cumCount t.length + 52 * 64 ^ t.length := rfl
        omega
    subst hm
    have hr : digitsRank (d :: t) - cumCount t.length = digitsVal (d :: t) := by
      rw [hrank]; omega
    rw [h3, hr, digitsVal]
    have h1d : (d * 64 ^ t.length + digitsVal t) / 64 ^ t.length = d := by
      rw [mul_comm d, Nat.mul_add_div (Nat.pos_pow_of_pos _ (by norm_num)),
        Nat.div_eq_of_lt hvt, Nat.add_zero]
    have h2d : (d * 64 ^ t.length + digitsVal t) % 64 ^ t.length = digitsVal t := by
      rw [mul_comm d, Nat.mul_add_mod, Nat.mod_eq_of_lt hvt]
    rw [h1d, h2d, natDigits_digitsVal t ht]

theorem index_to_digits_length_le_iff (i : Nat) :
    (index_to_digits i).length ≤ 4 ↔ i < cumCount 4 := by
  obtain ⟨m, h1, h2, h3⟩ := index_to_digits_spec i
  have hlen : (index_to_digits i).length = m + 1 := by
    rw [h3]; simp [natDigits_length]
  rw [hlen]
  constructor
  · intro hm
    have : cumCount (m + 1) ≤ cumCount 4 := cumCount_strictMono.monotone (by omega)
    omega
  · intro hi
    by_contra hm
    have : cumCount 4 ≤ cumCount m := cumCount_strictMono.monotone (by omega)
    omega

theorem index_to_css_identifier_isSome_iff (i : Nat) :
    (index_to_css_identifier i).isSome = true ↔ i < cumCount 4 := by
  rw [index_to_css_identifier]
  by_cases h : (index_to_digits i).length ≤ 4
  · rw [if_pos h]
    exact iff_of_true rfl ((index_to_digits_length_le_iff i).mp h)
  · rw [if_neg h]
    constructor
    · intro hs
      simp at hs
    · intro hi
      exact absurd ((index_to_digits_length_le_iff i).mpr hi) h


theorem idCharOf_tail_valid :
    ∀ d : Fin 64, isIdentTailChar (idCharOf d.val) = true ∧
      (d.val < 52 → isIdentHeadChar (idCharOf d.val) = true) := by
  decide

theorem idCharOf_inj_fin :
    ∀ d1 d2 : Fin 64, idCharOf d1.val = idCharOf d2.val → d1 = d2 := by
  decide

theorem idCharOf_inj {a b : Nat} (ha : a < 64) (hb : b < 64)
    (h : idCharOf a = idCharOf b) : a = b := by
  have := idCharOf_inj_fin ⟨a, ha⟩ ⟨b, hb⟩ h
  exact congrArg Fin.val this

theorem tailChar_toNat_lt (c : Char) (h : isIdentTailChar c = true) : c.toNat < 123 := by
  rw [isIdentTailChar, isIdentHeadChar] at h
  simp only [Bool.or_eq_true, Bool.and_eq_true, decide_eq_true_eq, beq_iff_eq] at h
  have he : c.toNat = c.val.toNat := rfl
  rcases h with (((⟨_, h2⟩ | ⟨_, h2⟩) | ⟨_, h2⟩) | h2) | h2
  · have h4 : c.val.toNat ≤ ('z').val.toNat := by exact_mod_cast Char.le_def.mp h2
    have h5 : ('z').val.toNat = 122 := rfl
    omega
  · have h4 : c.val.toNat ≤ ('Z').val.toNat := by exact_mod_cast Char.le_def.mp h2
    have h5 : ('Z').val.toNat = 90 := rfl
    omega
  · have h4 : c.val.toNat ≤ ('9').val.toNat := by exact_mod_cast Char.le_def.mp h2
    have h5 : ('9').val.toNat = 57 := rfl
    omega
  · subst h2
    have h5 : ('_').val.toNat = 95 := rfl
    omega
  · subst h2
    have h5 : ('-').val.toNat = 45 := rfl
    omega

set_option maxRecDepth 4096 in
theorem charIdxOf_table :
    ∀ v : Fin 123, isIdentTailChar (Char.ofNat v.val) = true →
      charIdxOf (Char.ofNat v.val) < 64 ∧
        idCharOf (charIdxOf (Char.ofNat v.val)) = Char.ofNat v.val ∧
        (isIdentHeadChar (Char.ofNat v.val) = true → charIdxOf (Char.ofNat v.val) < 52) ∧
        (isIdentHeadChar (Char.ofNat v.val) = false → 52 ≤ charIdxOf (Char.ofNat v.val)) := by
  decide

theorem charIdxOf_spec (c : Char) (h : isIdentTailChar c = true) :
    charIdxOf c < 64 ∧ idCharOf (charIdxOf c) = c ∧
      (isIdentHeadChar c = true → charIdxOf c < 52) ∧
      (isIdentHeadChar c = false → 52 ≤ charIdxOf c) := by
  have hlt := tailChar_toNat_lt c h
  have ht := charIdxOf_table ⟨c.toNat, hlt⟩
  rw [Char.ofNat_toNat] at ht
  exact ht h


theorem charIdxOf_idCharOf : ∀ d : Fin 64, charIdxOf (idCharOf d.val) = d.val := by
  decide

theorem isCssIdent_map_idCharOf (ds : List Nat) (h : validDigits ds) :
    isCssIdent (ds.map idCharOf) = true := by
  match ds, h with
  | d :: t, ⟨hd, ht⟩ =>
    show (isIdentHeadChar (idCharOf d) && (t.map idCharOf).all isIdentTailChar) = true
    rw [Bool.and_eq_true]
    constructor
    · exact (idCharOf_tail_valid ⟨d, by omega⟩).2 hd
    · rw [List.all_eq_true]
      intro c hc
      obtain ⟨x, hx, hxc⟩ := List.mem_map.mp hc
      subst hxc
      exact (idCharOf_tail_valid ⟨x, ht x hx⟩).1

theorem map_idCharOf_inj :
    ∀ ds1 ds2 : List Nat, (∀ d ∈ ds1, d < 64) → (∀ d ∈ ds2, d < 64) →
      ds1.map idCharOf = ds2.map idCharOf → ds1 = ds2 := by
  intro ds1
  induction ds1 with
  | nil =>
    intro ds2 _ _ h
    cases ds2 <;> simp_all
  | cons d t ih =>
    intro ds2 h1 h2 h
    cases ds2 with
    | nil => simp_all
    | cons d2 t2 =>
      simp only [List.map_cons, List.cons.injEq] at h
      have hd : d = d2 :=
        idCharOf_inj (h1 d (List.mem_cons_self d t)) (h2 d2 (List.mem_cons_self d2 t2)) h.1
      have ht : t = t2 := ih t2 (fun x hx => h1 x (List.mem_cons_of_mem d hx))
        (fun x hx => h2 x (List.mem_cons_of_mem d2 hx)) h.2
      rw [hd, ht]

theorem map_charIdxOf_of_ident (w : List Char) (h : isCssIdent w = true) :
    validDigits (w.map charIdxOf) ∧ (w.map charIdxOf).map idCharOf = w := by
  match w, h with
  | c :: rest, h =>
    have h2 := h
    rw [isCssIdent, Bool.and_eq_true] at h2
    obtain ⟨hhead, htail⟩ := h2
    have hheadtail : isIdentTailChar c = true := by
      rw [isIdentTailChar, hhead]
      rfl
    have hc := charIdxOf_spec c hheadtail
    constructor
    · constructor
      · exact hc.2.2.1 hhead
      · intro x hx
        obtain ⟨ch, hch, hchx⟩ := List.mem_map.mp hx
        subst hchx
        exact (charIdxOf_spec ch (List.all_eq_true.mp htail ch hch)).1
    · show (charIdxOf c :: rest.map charIdxOf).map idCharOf = c :: rest
      rw [List.map_cons]
      congr 1
      · exact hc.2.1
      · rw [List.map_map]
        have : ∀ ch ∈ rest, (idCharOf ∘ charIdxOf) ch = ch := by
          intro ch hch
          exact (charIdxOf_spec ch (List.all_eq_true.mp htail ch hch)).2.1
        calc rest.map (idCharOf ∘ charIdxOf) = rest.map id := List.map_congr_left this
          _ = rest := List.map_id rest

theorem digitsRank_lt_cumCount (ds : List Nat) (h : validDigits ds) :
    digitsRank ds < cumCount ds.length := by
  match ds, h with
  | d :: t, ⟨hd, ht⟩ =>
    have hvt : digitsVal t < 64 ^ t.length := digitsVal_lt t ht
    have hstep : cumCount (t.length + 1) = cumCount t.length + 52 * 64 ^ t.length := rfl
    have hval : digitsVal (d :: t) < 52 * 64 ^ t.length := by
      rw [digitsVal]
      have : d * 64 ^ t.length ≤ 51 * 64 ^ t.length := Nat.mul_le_mul_right _ (by omega)
      have h52 : (51 : Nat) * 64 ^ t.length + 64 ^ t.length = 52 * 64 ^ t.length := by ring
      omega
    show cumCount ((d :: t).length - 1) + digitsVal (d :: t) < cumCount (d :: t).length
    simp only [List.length_cons, Nat.add_sub_cancel]
    omega

theorem digitLexLt_of_digitsVal_lt :
    ∀ ds1 ds2 : List Nat, ds1.length = ds2.length → (∀ d ∈ ds2, d < 64) →
      digitsVal ds1 < digitsVal ds2 → digitLexLt ds1 ds2 := by
  intro ds1
  induction ds1 with
  | nil =>
    intro ds2 hlen _ hv
    cases ds2 with
    | nil => simp [digitsVal] at hv
    | cons d t => simp at hlen
  | cons d1 t1 ih =>
    intro ds2 hlen h2 hv
    cases ds2 with
    | nil => simp at hlen
    | cons d2 t2 =>
      have hlen2 : t1.length = t2.length := by simpa using hlen
      have hvt2 : digitsVal t2 < 64 ^ t2.length :=
        digitsVal_lt t2 fun x hx => h2 x (List.mem_cons_of_mem d2 hx)
      rcases lt_trichotomy d1 d2 with hd | hd | hd
      · exact Or.inl hd
      · refine Or.inr ⟨hd, ?_⟩
        apply ih t2 hlen2 (fun x hx => h2 x (List.mem_cons_of_mem d2 hx))
        rw [digitsVal, digitsVal, hlen2, hd] at hv
        omega
      · exfalso
        rw [digitsVal, digitsVal, hlen2] at hv
        have hge : d2 * 64 ^ t2.length + 64 ^ t2.length ≤ d1 * 64 ^ t2.length := by
          have : (d2 + 1) * 64 ^ t2.length ≤ d1 * 64 ^ t2.length :=
            Nat.mul_le_mul_right _ (by omega)
          have he : (d2 + 1) * 64 ^ t2.length = d2 * 64 ^ t2.length + 64 ^ t2.length := by
            ring
          omega
        omega

theorem digitsRank_order (ds1 ds2 : List Nat) (h1 : validDigits ds1) (h2 : validDigits ds2)
    (h : digitsRank ds1 < digitsRank ds2) :
    ds1.length < ds2.length ∨ (ds1.length = ds2.length ∧ digitLexLt ds1 ds2) := by
  rcases lt_trichotomy ds1.length ds2.length with hl | hl | hl
  · exact Or.inl hl
  · refine Or.inr ⟨hl, ?_⟩
    have hb2 : ∀ d ∈ ds2, d < 64 := by
      match ds2, h2 with
      | d :: t, ⟨hd, ht⟩ =>
        intro x hx
        rcases List.mem_cons.mp hx with hx | hx
        · omega
        · exact ht x hx
    apply digitLexLt_of_digitsVal_lt ds1 ds2 hl hb2
    rw [digitsRank, digitsRank, hl] at h
    omega
  · exfalso
    obtain ⟨d, t, rfl⟩ : ∃ d t, ds1 = d :: t := by
      match ds1, h1 with
      | d :: t, _ => exact ⟨d, t, rfl⟩
    have hr1 : digitsRank ds2 < cumCount ds2.length := digitsRank_lt_cumCount ds2 h2
    have hlen : ds2.length ≤ t.length := by
      simp only [List.length_cons] at hl
      omega
    have hmono : cumCount ds2.length ≤ cumCount t.length := cumCount_strictMono.monotone hlen
    have hr2 : cumCount t.length ≤ digitsRank (d :: t) := by
      rw [digitsRank]
      simp only [List.length_cons, Nat.add_sub_cancel]
      omega
    omega


theorem validDigits_bound (ds : List Nat) (h : validDigits ds) : ∀ d ∈ ds, d < 64 := by
  match ds, h with
  | d :: t, ⟨hd, ht⟩ =>
    intro x hx
    rcases List.mem_cons.mp hx with hx | hx
    · omega
    · exact ht x hx

theorem map_charIdxOf_map_idCharOf (ds : List Nat) (h : ∀ d ∈ ds, d < 64) :
    (ds.map idCharOf).map charIdxOf = ds := by
  rw [List.map_map]
  have : ∀ d ∈ ds, (charIdxOf ∘ idCharOf) d = d := by
    intro d hd
    exact charIdxOf_idCharOf ⟨d, h d hd⟩
  calc ds.map (charIdxOf ∘ idCharOf) = ds.map id := List.map_congr_left this
    _ = ds := List.map_id ds

theorem index_to_css_identifier_eq (i : Nat) (h : i < cumCount 4) :
    index_to_css_identifier i = some ((index_to_digits i).map idCharOf) := by
  rw [index_to_css_identifier, if_pos ((index_to_digits_length_le_iff i).mpr h)]
  rfl

theorem cumCount_four : cumCount 4 = 13847860 := by decide

/-! Proof development for `ClassMap::populate_table` (claim C9): list and
bitmask helpers, downward closure of constraint satisfaction, length
preservation, and the table-filling invariant. -/


theorem set_getD (l : List String) (n : Nat) (a : String) (m : Nat) (h : n < l.length) :
    (l.set n a).getD m "" = if n = m then a else l.getD m "" := by
  rw [List.getD_eq_getElem?_getD, List.getElem?_set, List.getD_eq_getElem?_getD]
  by_cases hnm : n = m
  · subst hnm
    simp [h]
  · rw [if_neg hnm, if_neg hnm]

theorem replicate_getD (n m : Nat) (a : String) : (List.replicate n a).getD m a = a := by
  rw [List.getD_eq_getElem?_getD, List.getElem?_replicate]
  by_cases h : m < n
  · rw [if_pos h]
    rfl
  · rw [if_neg h]
    rfl

theorem lor_one_shiftLeft (a i : Nat) (h : a < 2 ^ i) : a ||| (1 <<< i) = a + 2 ^ i := by
  rw [Nat.shiftLeft_eq, one_mul]
  apply Nat.eq_of_testBit_eq
  intro j
  rcases lt_trichotomy j i with hj | hj | hj
  · rw [Nat.testBit_lor, Nat.testBit_two_pow_of_ne (by omega), Bool.or_false]
    rw [Nat.testBit_to_div_mod, Nat.testBit_to_div_mod]
    have hsplit : 2 ^ i = 2 ^ j * 2 ^ (i - j) := by
      rw [← pow_add]
      congr 1
      omega
    rw [hsplit, Nat.add_mul_div_left _ _ (Nat.pos_pow_of_pos j (by norm_num))]
    have h2 : 2 ^ (i - j) = 2 * 2 ^ (i - j - 1) := by
      rw [← pow_succ']
      congr 1
      omega
    rw [h2, Nat.add_mul_mod_self_left]
  · subst hj
    rw [Nat.testBit_lor, Nat.testBit_two_pow_self, Bool.or_true]
    rw [Nat.testBit_to_div_mod]
    have h1 : (a + 2 ^ j) / 2 ^ j = 1 := by
      rw [Nat.add_div_right _ (Nat.pos_pow_of_pos j (by norm_num)), Nat.div_eq_of_lt h]
    rw [h1]
    rfl
  · rw [Nat.testBit_lor, Nat.testBit_two_pow_of_ne (by omega), Bool.or_false]
    have hij : (2 : Nat) ^ (i + 1) ≤ 2 ^ j := Nat.pow_le_pow_right (by norm_num) (by omega)
    have h1 : a.testBit j = false := Nat.testBit_lt_two_pow (by
      calc a < 2 ^ i := h
        _ ≤ 2 ^ j := Nat.pow_le_pow_right (by norm_num) (by omega))
    have h2 : (a + 2 ^ i).testBit j = false := Nat.testBit_lt_two_pow (by
      calc a + 2 ^ i < 2 ^ i + 2 ^ i := by omega
        _ = 2 ^ (i + 1) := by ring
        _ ≤ 2 ^ j := hij)
    rw [h1, h2]

theorem satisfied_of_submask (cm : ClassMap) {a b : Nat}
    (hsub : ∀ t, a.testBit t = true → b.testBit t = true)
    (hb : cm.is_constraints_satisfied b = true) : cm.is_constraints_satisfied a = true := by
  rw [ClassMap.is_constraints_satisfied, List.all_eq_true] at hb ⊢
  intro c hc
  have hbc := hb c hc
  rw [Bool.not_eq_eq_eq_not, Bool.not_true, beq_eq_false_iff_ne] at hbc ⊢
  intro hac
  apply hbc
  apply Nat.eq_of_testBit_eq
  intro t
  rw [Nat.testBit_land]
  by_cases hct : c.testBit t = true
  · rw [hct, Bool.and_true]
    have hat : a.testBit t = true := by
      have := congrArg (fun x => x.testBit t) hac
      simp only [Nat.testBit_land] at this
      rw [hct, Bool.and_true] at this
      exact this
    exact hsub t hat
  · rw [Bool.not_eq_true] at hct
    rw [hct, Bool.and_false]

theorem submask_of_mod {J i pm : Nat} (hpm : J % 2 ^ i = pm) :
    ∀ t, pm.testBit t = true → J.testBit t = true := by
  intro t ht
  subst hpm
  rw [Nat.testBit_mod_two_pow] at ht
  exact ((Bool.and_eq_true _ _).mp ht).2


theorem populate_table_length (cm : ClassMap) :
    ∀ fuel i, cm.states.length - i ≤ fuel → ∀ (result : List String) prev pm,
      (cm.populate_table result i prev pm).length = result.length := by
  intro fuel
  induction fuel with
  | zero =>
    intro i hf result prev pm
    rw [ClassMap.populate_table]
    by_cases hsat : cm.is_constraints_satisfied pm = true
    · rw [hsat]
      by_cases hieq : i = cm.states.length
      · simp [hieq, List.length_set]
      · have hnlt : ¬ i < cm.states.length := by omega
        simp [hieq, hnlt]
    · simp [Bool.eq_false_iff.mpr hsat]
  | succ fuel ih =>
    intro i hf result prev pm
    rw [ClassMap.populate_table]
    by_cases hsat : cm.is_constraints_satisfied pm = true
    · rw [hsat]
      by_cases hieq : i = cm.states.length
      · simp [hieq, List.length_set]
      · by_cases hlt : i < cm.states.length
        · simp only [hieq, hlt, Bool.not_true, Bool.false_eq_true, if_false, dif_pos,
            if_true]
          rw [ih (i + 1) (by omega), ih (i + 1) (by omega)]
        · simp [hieq, hlt]
    · simp [Bool.eq_false_iff.mpr hsat]


theorem populate_table_getD_leaf (cm : ClassMap) (result : List String) (prev : String)
    (pm : Nat) (hres : result.length = 2 ^ cm.states.length)
    (hpm : pm < 2 ^ cm.states.length) (J : Nat) (hJ : J < 2 ^ cm.states.length) :
    (cm.populate_table result cm.states.length prev pm).getD J "" =
      if J % 2 ^ cm.states.length = pm ∧ cm.is_constraints_satisfied J = true
      then active_join prev
        ((cm.states.map fun st => st.classes).drop cm.states.length)
        (J / 2 ^ cm.states.length)
      else result.getD J "" := by
  have hmod : J % 2 ^ cm.states.length = J := Nat.mod_eq_of_lt hJ
  have hdiv : J / 2 ^ cm.states.length = 0 := Nat.div_eq_of_lt hJ
  have hdrop : (cm.states.map fun st => st.classes).drop cm.states.length = [] := by
    have : cm.states.length = (cm.states.map fun st => st.classes).length := by
      rw [List.length_map]
    rw [this, List.drop_length]
  rw [ClassMap.populate_table]
  by_cases hsat : cm.is_constraints_satisfied pm = true
  · rw [hsat]
    rw [show (!true) = false from rfl, if_neg (by simp), if_pos rfl]
    rw [set_getD result pm prev J (by omega)]
    by_cases hJpm : J = pm
    · subst hJpm
      rw [if_pos rfl, if_pos ⟨hmod, hsat⟩, hdrop, hdiv]
      rfl
    · rw [if_neg fun hpmJ => hJpm hpmJ.symm, if_neg]
      intro hcond
      exact hJpm (hmod ▸ hcond.1)
  · have hsatf : cm.is_constraints_satisfied pm = false := Bool.eq_false_iff.mpr hsat
    rw [hsatf]
    rw [show (!false) = true from rfl, if_pos rfl]
    have hcond : ¬(J % 2 ^ cm.states.length = pm ∧
        cm.is_constraints_satisfied J = true) := fun hcond =>
      hsat (satisfied_of_submask cm (submask_of_mod hcond.1) hcond.2)
    rw [if_neg hcond]

theorem populate_table_getD (cm : ClassMap) :
    ∀ fuel i, cm.states.length - i ≤ fuel → i ≤ cm.states.length →
      ∀ (result : List String) (prev : String) (pm : Nat),
        result.length = 2 ^ cm.states.length → pm < 2 ^ i →
        ∀ J, J < 2 ^ cm.states.length →
          (cm.populate_table result i prev pm).getD J "" =
            if J % 2 ^ i = pm ∧ cm.is_constraints_satisfied J = true
            then active_join prev ((cm.states.map fun st => st.classes).drop i) (J / 2 ^ i)
            else result.getD J "" := by
  intro fuel
  induction fuel with
  | zero =>
    intro i hf hile result prev pm hres hpm J hJ
    have hieq : i = cm.states.length := by omega
    subst hieq
    exact populate_table_getD_leaf cm result prev pm hres hpm J hJ
  | succ fuel ih =>
    intro i hf hile result prev pm hres hpm J hJ
    by_cases hieq : i = cm.states.length
    · subst hieq
      exact populate_table_getD_leaf cm result prev pm hres hpm J hJ
    · have hlt : i < cm.states.length := by omega
      rw [ClassMap.populate_table]
      by_cases hsat : cm.is_constraints_satisfied pm = true
      · rw [hsat]
        rw [show (!true) = false from rfl, if_neg (by simp), if_neg hieq, dif_pos hlt]
        have hlor : pm ||| 1 <<< i = pm + 2 ^ i := lor_one_shiftLeft pm i hpm
        have h2i : (2 : Nat) ^ (i + 1) = 2 ^ i + 2 ^ i := by ring
        have h2ipos : (0 : Nat) < 2 ^ i := Nat.pos_pow_of_pos i (by norm_num)
        have hr1len :
            (cm.populate_table result (i + 1) prev pm).length = result.length :=
          populate_table_length cm (cm.states.length) (i + 1) (by omega) result prev pm
        have ih1 := ih (i + 1) (by omega) (by omega) result prev pm hres
          (by omega) J hJ
        have ih2 := ih (i + 1) (by omega) (by omega)
          (cm.populate_table result (i + 1) prev pm)
          (join_strings prev (cm.states.get ⟨i, hlt⟩).classes) (pm + 2 ^ i)
          (hr1len.trans hres) (by omega) J hJ
        rw [hlor, ih2, ih1]
        have hmodmul : J % 2 ^ (i + 1) = J % 2 ^ i + 2 ^ i * (J / 2 ^ i % 2) := by
          have he : (2 : Nat) ^ (i + 1) = 2 ^ i * 2 := by ring
          rw [he, Nat.mod_mul]
        have hdd : J / 2 ^ i / 2 = J / 2 ^ (i + 1) := by
          rw [Nat.div_div_eq_div_mul]
          have he2 : (2 : Nat) ^ i * 2 = 2 ^ (i + 1) := by ring
          rw [he2]
        have hdrop : (cm.states.map fun st => st.classes).drop i =
            (cm.states.get ⟨i, hlt⟩).classes ::
              (cm.states.map fun st => st.classes).drop (i + 1) := by
          have hlen : i < (cm.states.map fun st => st.classes).length := by
            rw [List.length_map]
            exact hlt
          rw [List.drop_eq_getElem_cons hlen, List.getElem_map]
          rfl
        have hstep : ∀ t, active_join prev
            ((cm.states.map fun st => st.classes).drop i) t =
            active_join (if t % 2 = 1
              then join_strings prev (cm.states.get ⟨i, hlt⟩).classes else prev)
              ((cm.states.map fun st => st.classes).drop (i + 1)) (t / 2) := by
          intro t
          rw [hdrop, active_join]
        by_cases hb : J / 2 ^ i % 2 = 1
        · have hm1 : J % 2 ^ (i + 1) = J % 2 ^ i + 2 ^ i := by
            rw [hmodmul, hb]
            ring
          by_cases hJc : J % 2 ^ i = pm ∧ cm.is_constraints_satisfied J = true
          · have hcond2 : J % 2 ^ (i + 1) = pm + 2 ^ i ∧
                cm.is_constraints_satisfied J = true := ⟨by omega, hJc.2⟩
            rw [if_pos hcond2, if_pos hJc, hstep (J / 2 ^ i), if_pos hb, hdd]
          · have hcond2 : ¬(J % 2 ^ (i + 1) = pm + 2 ^ i ∧
                cm.is_constraints_satisfied J = true) := fun hc =>
              hJc ⟨by omega, hc.2⟩
            have hcond1 : ¬(J % 2 ^ (i + 1) = pm ∧
                cm.is_constraints_satisfied J = true) := fun hc => by
              have := hc.1
              omega
            rw [if_neg hcond2, if_neg hcond1, if_neg hJc]
        · have hb0 : J / 2 ^ i % 2 = 0 := by omega
          have hm0 : J % 2 ^ (i + 1) = J % 2 ^ i := by
            rw [hmodmul, hb0]
            ring
          by_cases hJc : J % 2 ^ i = pm ∧ cm.is_constraints_satisfied J = true
          · have hcond2 : ¬(J % 2 ^ (i + 1) = pm + 2 ^ i ∧
                cm.is_constraints_satisfied J = true) := fun hc => by
              have h1 := hc.1
              have h2 := hJc.1
              omega
            have hcond1 : J % 2 ^ (i + 1) = pm ∧
                cm.is_constraints_satisfied J = true := ⟨by omega, hJc.2⟩
            rw [if_neg hcond2, if_pos hcond1, if_pos hJc, hstep (J / 2 ^ i),
              if_neg (by omega), hdd]
          · have hcond2 : ¬(J % 2 ^ (i + 1) = pm + 2 ^ i ∧
                cm.is_constraints_satisfied J = true) := fun hc => by
              have h1 := hc.1
              omega
            have hcond1 : ¬(J % 2 ^ (i + 1) = pm ∧
                cm.is_constraints_satisfied J = true) := fun hc =>
              hJc ⟨by omega, hc.2⟩
            rw [if_neg hcond2, if_neg hcond1, if_neg hJc]
      · have hsatf : cm.is_constraints_satisfied pm = false := Bool.eq_false_iff.mpr hsat
        rw [hsatf]
        rw [show (!false) = true from rfl, if_pos rfl]
        have hcond : ¬(J % 2 ^ i = pm ∧
            cm.is_constraints_satisfied J = true) := fun hc =>
          hsat (satisfied_of_submask cm (submask_of_mod hc.1) hc.2)
        rw [if_neg hcond]

/-- Claim C10: the generator's enumeration order matches the specified
mixed-radix encoding: indices 0..51 produce the single characters
`a..z, A..Z`, and `next_for(52) = "aa"`, `next_for(53) = "ab"`,
`next_for(103) = "aZ"`, `next_for(104) = "a0"`, `next_for(115) = "a-"`,
`next_for(116) = "ba"`. -/
theorem idgen_enumeration_values :
    (List.range 52).map index_to_css_identifier =
      (["a", "b", "c", "d", "e", "f", "g", "h", "i", "j", "k", "l", "m",
        "n", "o", "p", "q", "r", "s", "t", "u", "v", "w", "x", "y", "z",
        "A", "B", "C", "D", "E", "F", "G", "H", "I", "J", "K", "L", "M",
        "N", "O", "P", "Q", "R", "S", "T", "U", "V", "W", "X", "Y", "Z"].map
          fun w => some w.toList) ∧
    index_to_css_identifier 52 = some ("aa".toList) ∧
    index_to_css_identifier 53 = some ("ab".toList) ∧
    index_to_css_identifier 103 = some ("aZ".toList) ∧
    index_to_css_identifier 104 = some ("a0".toList) ∧
    index_to_css_identifier 115 = some ("a-".toList) ∧
    index_to_css_identifier 116 = some ("ba".toList) := by
  decide

/-- Claim C5, counterexample: the generator is not total on the naturals.
At index 13847860 (the number of identifiers of length at most 4) the
encoding needs a fifth character, so the Rust function indexes `result[4]`
on a `[u8; 4]` buffer and panics; the embedding returns `none`. -/
theorem idgen_out_of_buffer_at_bound :
    index_to_css_identifier 13847860 = none ∧
    (index_to_digits 13847860).length = 5 ∧
    index_to_css_identifier 13847859 = some ("Z---".toList) := by
  decide

/-- Claim C1: the map round-trip fails on the code.  The map built by two
`get_id` calls on module `foo` serializes (in insertion order — this is
exactly its pending buffer) to `C,foo,title,a\nC,foo,subtitle,b\n`;
importing that text into a fresh map misparses the second row's module id
as `foo,title,a\nC,foo` (the parser slices from the hardcoded offset 2),
creating a bogus second module, so looking up `(foo, Class, subtitle)` in
the reimported map mints a fresh id `c` instead of returning `b` and
appends a new row to the pending buffer. -/
theorem map_roundtrip_fails_on_reimport :
    (c1_build.map fun t => (t.1, t.2.1, t.2.2.new_ids_buf)) =
      some (⟨IdKind.Class, 0, "title".toList, "a".toList⟩,
            ⟨IdKind.Class, 0, "subtitle".toList, "b".toList⟩, c1_serialized) ∧
    (c1_reimported.map fun m2 => m2.modules.map fun md => md.id) =
      some [("foo".toList), (("foo,title,a\nC,foo").toList)] ∧
    (c1_reimported.bind fun m2 =>
        (m2.get_id 0 IdKind.Class ("subtitle".toList)).map fun r =>
          (r.1.global_id, r.2.new_ids_buf)) =
      some (("c".toList),
            mk_row ("C".toList) ("foo".toList) ("subtitle".toList) ("c".toList)) ∧
    ("c".toList : List Char) ≠ ("b".toList) := by
  decide

/-- Claim C2: `get_id` does not give the freshly minted id the requested
kind.  On a fresh map with module `foo`, `get_id(0, Var, "x")` mints a new
id whose record carries `kind = Class` (the source hardcodes
`IdKind::Class` in the mint branch) even though the appended CSV row
correctly starts with the kind letter `V`. -/
theorem get_id_mints_wrong_kind :
    (((cssMapEmpty.get_module_index ("foo".toList)).2.get_id 0 IdKind.Var
        ("x".toList)).map fun r => (r.1, r.2.new_ids_buf)) =
      some (⟨IdKind.Class, 0, "x".toList, "a".toList⟩,
            mk_row ("V".toList) ("foo".toList) ("x".toList) ("a".toList)) ∧
    IdKind.Class ≠ IdKind.Var := by
  decide

/-- Claim C3: the delta encoding fails on every row after the first.  On
the two-row input whose rows both carry module field `foo`, the parser
yields `Some "foo,title,a\nC,foo"` for the second row — the slice from
the hardcoded offset 2 up to the second row's comma — instead of the
`None` the claim requires for a repeated module id (the first row is
reported correctly). -/
theorem delta_encoding_fails_on_second_row :
    parse_all (mk_row ("C".toList) ("foo".toList) ("title".toList) ("a".toList) ++
        mk_row ("C".toList) ("foo".toList) ("subtitle".toList) ("b".toList)) =
      .ok [(IdKind.Class, some ("foo".toList), ("title".toList), ("a".toList)),
           (IdKind.Class, some (("foo,title,a\nC,foo").toList), ("subtitle".toList),
            ("b".toList))] ∧
    (some (("foo,title,a\nC,foo").toList) : Option (List Char)) ≠ none ∧
    (("foo,title,a\nC,foo").toList : List Char) ≠ ("foo".toList) :=
  ⟨by decide, by decide, by decide⟩

/-- Claim C4: the keyframes post-pass misses freshly minted keyframes.
Compiling module `foo` with `@keyframes spin` registers
`spin ↦ global "a"` in the module scope and sets `has_keyframes`, but the
record minted by `get_id` carries `kind = Class`, so
`TransformAnimationNames` (whose guard requires `kind == Keyframes`)
leaves the `animation: spin` declaration unchanged instead of rewriting
the identifier to `a`. -/
theorem animation_postpass_misses_fresh_keyframes :
    (c4_visit.map fun r => (r.1, r.2.2.1.keyframes, r.2.2.2)) =
      some (("a".toList),
            [(("spin".toList), ⟨IdKind.Class, 0, "spin".toList, "a".toList⟩)], true) ∧
    (c4_visit.map fun r =>
        transform_animation_decl r.2.2.1.keyframes
          ⟨"animation".toList, [CompValue.ident ("spin".toList)]⟩) =
      some ⟨"animation".toList, [CompValue.ident ("spin".toList)]⟩ ∧
    ("spin".toList : List Char) ≠ ("a".toList) := by
  decide

/-- Claim C6: `flush_new_ids` loses rows on a partial write.  With a
14-byte pending buffer and a writer that accepts only 5 bytes (a result
the `io::Write::write` contract permits and the source discards),
`flush_new_ids` still returns `Ok` and clears the buffer, so the 9
unwritten bytes are lost; when the write errors, the call returns `Err`
and produces no cleared map. -/
theorem flush_partial_write_loses_rows :
    ((c6_m.flush_new_ids (.ok 5) (.ok ())).map fun m2 => m2.new_ids_buf) = .ok [] ∧
    5 < c6_m.new_ids_buf.length ∧
    c6_m.new_ids_buf.take 5 ≠ c6_m.new_ids_buf ∧
    ((c6_m.flush_new_ids (.error ()) (.ok ())).map fun m2 => m2.new_ids_buf) =
      .error () := by
  decide

/-- Claim C7, counterexample: joining a non-empty prefix with an empty
token does not return the prefix unchanged: `join_strings("a", "")` is
`"a "` with a trailing space, not `"a"` (the source's own unit test
`concat_class_names_empty_b` asserts exactly this behaviour). -/
theorem join_strings_trailing_space_counterexample :
    join_strings "a" "" = "a " ∧ ("a " : String) ≠ "a" := by
  decide

/-- Claim C7 (amended): joining with an empty running prefix returns the
token; joining with a non-empty prefix inserts a single space between the
prefix and the token even when the token is empty, so `join("a", "")` is
`"a "` with a trailing space rather than `"a"`. -/
theorem join_strings_spec :
    (∀ b : String, join_strings "" b = b) ∧
    (∀ (a b : String), a ≠ "" → join_strings a b = a ++ " " ++ b) ∧
    join_strings "a" "" = "a " := by
  refine ⟨fun b => rfl, fun a b h => ?_, by decide⟩
  obtain ⟨la⟩ := a
  have hf : (String.mk la).isEmpty = false := by
    cases hh : (String.mk la).isEmpty
    · rfl
    · exact absurd ((String.isEmpty_iff _).mp hh) h
  rw [join_strings, hf]
  obtain ⟨lb⟩ := b
  show String.mk ((la ++ [' ']) ++ lb) = String.mk ((la ++ [' ']) ++ lb)
  rfl

/-- Witness for `join_strings_spec` at the concrete input `("a", "b")`. -/
theorem join_strings_spec_witness :
    join_strings "a" "b" = "a" ++ " " ++ "b" :=
  join_strings_spec.2.1 "a" "b" (by decide)

/-! Proof development for `IdSet::next_id` (claim C8): the loop returns the
first acceptable candidate at or after the counter, advances the counter
past it, and never touches the seen set or the excludes. -/


theorem index_to_css_identifier_inj_some {i j : Nat} {w : List Char}
    (hi : index_to_css_identifier i = some w) (hj : index_to_css_identifier j = some w) :
    i = j := by
  have hi2 : i < cumCount 4 := by
    have : (index_to_css_identifier i).isSome = true := by rw [hi]; rfl
    exact (index_to_css_identifier_isSome_iff i).mp this
  have hj2 : j < cumCount 4 := by
    have : (index_to_css_identifier j).isSome = true := by rw [hj]; rfl
    exact (index_to_css_identifier_isSome_iff j).mp this
  rw [index_to_css_identifier_eq i hi2] at hi
  rw [index_to_css_identifier_eq j hj2] at hj
  have h := Option.some.inj (hi.trans hj.symm)
  exact index_to_digits_inj (map_idCharOf_inj _ _
    (validDigits_bound _ (index_to_digits_validDigits i))
    (validDigits_bound _ (index_to_digits_validDigits j)) h)

theorem next_id_go_spec :
    ∀ fuel n (s : IdSet) uid s2, next_id_go s n fuel = some (uid, s2) →
      ∃ k, n ≤ k ∧ index_to_css_identifier k = some uid ∧
        s2 = { s with index := k + 1 } ∧
        (s.exclude.any fun r => r uid) = false ∧ s.set.contains uid = false := by
  intro fuel
  induction fuel with
  | zero => intro n s uid s2 h; simp [next_id_go] at h
  | succ fuel ih =>
    intro n s uid s2 h
    rw [next_id_go] at h
    match hf : index_to_css_identifier n with
    | none => rw [hf] at h; simp at h
    | some uid0 =>
      rw [hf] at h
      dsimp only at h
      by_cases hex : (s.exclude.any fun r => r uid0) = true
      · rw [if_pos hex] at h
        obtain ⟨k, hk1, hk2, hk3, hk4, hk5⟩ := ih (n + 1) s uid s2 h
        exact ⟨k, by omega, hk2, hk3, hk4, hk5⟩
      · rw [if_neg hex] at h
        by_cases hc : s.set.contains uid0 = true
        · rw [if_pos hc] at h
          obtain ⟨k, hk1, hk2, hk3, hk4, hk5⟩ := ih (n + 1) s uid s2 h
          exact ⟨k, by omega, hk2, hk3, hk4, hk5⟩
        · rw [if_neg hc] at h
          obtain ⟨h1, h2⟩ := Prod.mk.injEq .. ▸ Option.some.inj h
          refine ⟨n, le_rfl, ?_, ?_, ?_, ?_⟩
          · rw [hf, h1]
          · exact h2.symm
          · rw [← h1]
            exact Bool.eq_false_iff.mpr hex
          · rw [← h1]
            exact Bool.eq_false_iff.mpr hc


theorem IdSet.next_id_spec (s : IdSet) (uid : List Char) (s2 : IdSet)
    (h : s.next_id = some (uid, s2)) :
    ∃ k, s.index ≤ k ∧ index_to_css_identifier k = some uid ∧
      s2 = { s with index := k + 1 } ∧
      (s.exclude.any fun r => r uid) = false ∧ s.set.contains uid = false :=
  next_id_go_spec _ s.index s uid s2 h

theorem next_ids_spec :
    ∀ (k : Nat) (s : IdSet) (ws : List (List Char)), s.next_ids k = some ws →
      (∀ w ∈ ws, ∃ m, s.index ≤ m ∧ index_to_css_identifier m = some w ∧
          s.set.contains w = false ∧ (s.exclude.any fun r => r w) = false) ∧
        ws.Nodup := by
  intro k
  induction k with
  | zero =>
    intro s ws h
    have hws : ws = [] := by
      rw [IdSet.next_ids] at h
      exact (Option.some.inj h).symm
    subst hws
    exact ⟨by simp, List.nodup_nil⟩
  | succ k ih =>
    intro s ws h
    rw [IdSet.next_ids] at h
    match h1 : s.next_id with
    | none => rw [h1] at h; simp at h
    | some (uid, s2) =>
      rw [h1] at h
      dsimp only at h
      match h2 : s2.next_ids k with
      | none => rw [h2] at h; simp at h
      | some ws2 =>
        rw [h2] at h
        dsimp only at h
        have hws : ws = uid :: ws2 := (Option.some.inj h).symm
        subst hws
        obtain ⟨k0, hk1, hk2, hk3, hk4, hk5⟩ := IdSet.next_id_spec s uid s2 h1
        have hs2idx : s2.index = k0 + 1 := by rw [hk3]
        have hs2set : s2.set = s.set := by rw [hk3]
        have hs2ex : s2.exclude = s.exclude := by rw [hk3]
        obtain ⟨ihw, ihnd⟩ := ih s2 ws2 h2
        constructor
        · intro w hw
          rcases List.mem_cons.mp hw with hw | hw
          · subst hw
            exact ⟨k0, hk1, hk2, hk5, hk4⟩
          · obtain ⟨m, hm1, hm2, hm3, hm4⟩ := ihw w hw
            rw [hs2idx] at hm1
            rw [hs2set] at hm3
            rw [hs2ex] at hm4
            exact ⟨m, by omega, hm2, hm3, hm4⟩
        · rw [List.nodup_cons]
          refine ⟨?_, ihnd⟩
          intro hmem
          obtain ⟨m, hm1, hm2, _, _⟩ := ihw uid hmem
          rw [hs2idx] at hm1
          have : m = k0 := index_to_css_identifier_inj_some hm2 hk2
          omega

/-- Claim C5 (amended): restricted to indices below 13847860 (the count of
identifiers of length at most 4 — the capacity of the 4-byte buffer, see
the counterexample), the generator is total and in-bounds, lands in the
language `[a-zA-Z][a-zA-Z0-9_-]*`, is injective, reaches every identifier
of length at most 4, and enumerates in the order given by length and then
by the internal 64-entry ordering vector `ID_CHARS`. -/
theorem idgen_bijection_below_bound :
    (∀ i, i < 13847860 →
        ∃ w, index_to_css_identifier i = some w ∧ isCssIdent w = true ∧ w.length ≤ 4) ∧
    (∀ i j, i < 13847860 → j < 13847860 →
        index_to_css_identifier i = index_to_css_identifier j → i = j) ∧
    (∀ w, isCssIdent w = true → w.length ≤ 4 →
        ∃ i, i < 13847860 ∧ index_to_css_identifier i = some w) ∧
    (∀ i j wi wj, i < j → j < 13847860 → index_to_css_identifier i = some wi →
        index_to_css_identifier j = some wj → cssWordLt wi wj) := by
  have hc4 : cumCount 4 = 13847860 := cumCount_four
  refine ⟨?_, ?_, ?_, ?_⟩
  · intro i hi
    rw [← hc4] at hi
    refine ⟨(index_to_digits i).map idCharOf, index_to_css_identifier_eq i hi, ?_, ?_⟩
    · exact isCssIdent_map_idCharOf _ (index_to_digits_validDigits i)
    · rw [List.length_map]
      exact (index_to_digits_length_le_iff i).mpr hi
  · intro i j hi hj h
    rw [← hc4] at hi hj
    rw [index_to_css_identifier_eq i hi, index_to_css_identifier_eq j hj] at h
    have h2 := map_idCharOf_inj _ _
      (validDigits_bound _ (index_to_digits_validDigits i))
      (validDigits_bound _ (index_to_digits_validDigits j))
      (Option.some.inj h)
    exact index_to_digits_inj h2
  · intro w hw hlen
    obtain ⟨hvd, hmap⟩ := map_charIdxOf_of_ident w hw
    have hlen2 : (w.map charIdxOf).length ≤ 4 := by
      rw [List.length_map]
      exact hlen
    have hr : digitsRank (w.map charIdxOf) < cumCount 4 := by
      have h1 := digitsRank_lt_cumCount _ hvd
      have h2 := cumCount_strictMono.monotone hlen2
      omega
    refine ⟨digitsRank (w.map charIdxOf), by omega, ?_⟩
    rw [index_to_css_identifier_eq _ hr, index_to_digits_digitsRank _ hvd, hmap]
  · intro i j wi wj hij hj hwi hwj
    have hi2 : i < cumCount 4 := by omega
    have hj2 : j < cumCount 4 := by omega
    rw [index_to_css_identifier_eq i hi2] at hwi
    rw [index_to_css_identifier_eq j hj2] at hwj
    have hwi2 := (Option.some.inj hwi).symm
    have hwj2 := (Option.some.inj hwj).symm
    have hvi := index_to_digits_validDigits i
    have hvj := index_to_digits_validDigits j
    have hri := digitsRank_index_to_digits i
    have hrj := digitsRank_index_to_digits j
    have horder := digitsRank_order (index_to_digits i) (index_to_digits j) hvi hvj
      (by rw [hri, hrj]; exact hij)
    subst hwi2
    subst hwj2
    rcases horder with hl | ⟨hl, hlex⟩
    · exact Or.inl (by simpa using hl)
    · refine Or.inr ⟨by simpa using hl, ?_⟩
      rw [map_charIdxOf_map_idCharOf _ (validDigits_bound _ hvi),
        map_charIdxOf_map_idCharOf _ (validDigits_bound _ hvj)]
      exact hlex

/-- Witness for `idgen_bijection_below_bound`: totality at index 116,
surjectivity at the word `ba`, and order between `next_for(115) = "a-"`
and `next_for(116) = "ba"`. -/
theorem idgen_bijection_below_bound_witness :
    (∃ w, index_to_css_identifier 116 = some w ∧ isCssIdent w = true ∧ w.length ≤ 4) ∧
    (∃ i, i < 13847860 ∧ index_to_css_identifier i = some ("ba".toList)) ∧
    cssWordLt ("a-".toList) ("ba".toList) :=
  ⟨idgen_bijection_below_bound.1 116 (by decide),
   idgen_bijection_below_bound.2.2.1 ("ba".toList) (by decide) (by decide),
   idgen_bijection_below_bound.2.2.2 115 116 ("a-".toList) ("ba".toList)
     (by decide) (by decide) (by decide) (by decide)⟩

/-- Claim C8: every identifier returned by `IdSet::next_id` is fresh.
Over any sequence of `next_id` calls on the same set (modelled by
`next_ids`), every returned identifier is absent from the seen set (so it
differs from every id registered via `add`), matches no exclude predicate,
and the returned identifiers are pairwise distinct — which establishes
invariant I2, per-kind uniqueness of `global_id` across all modules. -/
theorem next_id_results_fresh (s : IdSet) (k : Nat) (ws : List (List Char))
    (h : s.next_ids k = some ws) :
    ws.Nodup ∧
      ∀ w ∈ ws, s.set.contains w = false ∧ (s.exclude.any fun r => r w) = false := by
  obtain ⟨hw, hnd⟩ := next_ids_spec k s ws h
  refine ⟨hnd, fun w hmem => ?_⟩
  obtain ⟨m, _, _, h3, h4⟩ := hw w hmem
  exact ⟨h3, h4⟩

/-- Witness for `next_id_results_fresh`: a set seeded with `a`, an exclude
rejecting `b`, and three calls, which return `c`, `d`, `e`. -/
theorem next_id_results_fresh_witness :
    (IdSet.next_ids ⟨0, [fun w => w == ("b".toList)], [("a".toList)]⟩ 3 =
        some [("c".toList), ("d".toList), ("e".toList)]) ∧
    ([("c".toList), ("d".toList), ("e".toList)] : List (List Char)).Nodup ∧
    ∀ w ∈ ([("c".toList), ("d".toList), ("e".toList)] : List (List Char)),
      (IdSet.set ⟨0, [fun w => w == ("b".toList)], [("a".toList)]⟩).contains w = false ∧
      ((IdSet.exclude ⟨0, [fun w => w == ("b".toList)], [("a".toList)]⟩).any
        fun r => r w) = false := by
  have h : IdSet.next_ids ⟨0, [fun w => w == ("b".toList)], [("a".toList)]⟩ 3 =
      some [("c".toList), ("d".toList), ("e".toList)] := by decide
  have h2 := next_id_results_fresh _ 3 _ h
  exact ⟨h, h2.1, h2.2⟩

/-- Claim C9: class-map table emission.  The generated table has exactly
`2^N` entries and, for every mask `M`, the entry at index `M` is the
static classes joined (by the join rule) with the classes of each active
state of `M` in state-index order when `M` is satisfied (no exclude
constraint is contained in `M`), and the empty string otherwise. -/
theorem populate_table_spec (cm : ClassMap) (M : Nat)
    (hM : M < 2 ^ cm.states.length) :
    cm.table.length = 2 ^ cm.states.length ∧
    cm.table.getD M "" =
      (if cm.is_constraints_satisfied M = true
       then active_join cm.static_classes (cm.states.map fun st => st.classes) M
       else "") := by
  constructor
  · rw [ClassMap.table,
      populate_table_length cm cm.states.length 0 (by omega) _ _ _,
      ClassMap.create_empty_table, List.length_replicate]
  · rw [ClassMap.table,
      populate_table_getD cm cm.states.length 0 (by omega) (by omega) _ _ _
        (by rw [ClassMap.create_empty_table, List.length_replicate]) (by norm_num) M hM]
    have hm1 : M % 2 ^ 0 = 0 := by
      rw [pow_zero, Nat.mod_one]
    have hd1 : M / 2 ^ 0 = M := by
      rw [pow_zero, Nat.div_one]
    rw [hm1, hd1]
    by_cases hsat : cm.is_constraints_satisfied M = true
    · rw [if_pos ⟨rfl, hsat⟩, if_pos hsat, List.drop_zero]
    · rw [if_neg fun hc => hsat hc.2, if_neg hsat, ClassMap.create_empty_table,
        replicate_getD]

/-- Witness for `populate_table_spec`: the three-state example
`a:"A", b:"B", c:"C"` with excludes `[0b011, 0b101]` has the 8-entry table
`["", "A", "B", "", "C", "", "B C", ""]`; checked here at the masks 1, 3
and 6 and at the table length. -/
theorem populate_table_spec_witness :
    (ClassMap.table ⟨"", "", [⟨"a", "A"⟩, ⟨"b", "B"⟩, ⟨"c", "C"⟩], [3, 5]⟩).length = 8 ∧
    (ClassMap.table ⟨"", "", [⟨"a", "A"⟩, ⟨"b", "B"⟩, ⟨"c", "C"⟩], [3, 5]⟩).getD 6 "" =
      "B C" ∧
    (ClassMap.table ⟨"", "", [⟨"a", "A"⟩, ⟨"b", "B"⟩, ⟨"c", "C"⟩], [3, 5]⟩).getD 3 "" =
      "" ∧
    (ClassMap.table ⟨"", "", [⟨"a", "A"⟩, ⟨"b", "B"⟩, ⟨"c", "C"⟩], [3, 5]⟩).getD 1 "" =
      "A" :=
  ⟨(populate_table_spec _ 0 (by norm_num)).1.trans (by norm_num),
   (populate_table_spec _ 6 (by norm_num)).2.trans (by decide),
   (populate_table_spec _ 3 (by norm_num)).2.trans (by decide),
   (populate_table_spec _ 1 (by norm_num)).2.trans (by decide)⟩

end Xiss
